import Mathlib

/-!
Verification of the route-to-renderer mapping engine in `src/index.tsx`
(class `SiteGenerator`, class `ParsedArgs`, function `copyRecursive`).

Modelling conventions:
* Paths, filenames and CLI tokens are `List Char` (ASCII assumed, so the
  JavaScript UTF-16 `length`/`substring` agree with character counts).
* A JavaScript `Map` is an insertion-ordered association list; `Map.set`
  overwrites the value of an existing key in place and appends new keys.
* A `Renderer` is a nullary function, so it is modelled by the
  `RenderResult` value it returns.  `RenderResult` is the tagged sum the
  code distinguishes by runtime checks: string, `Uint8Array`,
  `ReadableStream`, duck-typed JSX element, and anything else (`other`).
  Stream chunks are modelled post UTF-8 decode (each chunk one text piece);
  a JSX element is modelled by the markup text the external renderer
  (`renderToReadableStream` / `renderToString`) produces for it.
* Filesystem effects are modelled functionally: `build` produces the list
  of file writes it performs in order, and the serve-time static lookup is
  parametrised by an `isFile` predicate (true exactly when `stat` succeeds
  on a regular file; non-ENOENT stat errors are outside the model).
* Registration errors (`mapStatic`) and build aborts are modelled with
  `Except`: an error result means the exception was thrown before any
  mutation, so no updated registry or write list is produced.
-/

namespace SJS

abbrev Str := List Char

/-- Association-list model of a JavaScript `Map` lookup (`Map.get`). -/
def mapGet {α : Type} (m : List (Str × α)) (k : Str) : Option α :=
  match m with
  | [] => none
  | (k', v) :: rest => if k' = k then some v else mapGet rest k

/-- Association-list model of `Map.set`: overwrite in place, else append. -/
def mapSet {α : Type} (m : List (Str × α)) (k : Str) (v : α) : List (Str × α) :=
  match m with
  | [] => [(k, v)]
  | (k', v') :: rest => if k' = k then (k, v) :: rest else (k', v') :: mapSet rest k v

/-- The runtime shapes a renderer result can take (`RenderResult` in the
source): a UTF-8 string, a raw byte buffer, a byte stream, a duck-typed
JSX element, or an unrecognized value. -/
inductive RenderResult where
  | text (s : Str)
  | bytes (b : List Nat)
  | stream (chunks : List Str)
  | jsx (rendered : Str)
  | other
deriving DecidableEq

/-- A registered renderer, modelled by the value it returns when invoked. -/
abbrev Renderer := RenderResult

/-- The `ResponseBody` union of the source (string, bytes or stream), plus
the pass-through of unrecognized values that `toResponseBody` performs. -/
inductive ResponseBody where
  | text (s : Str)
  | bytes (b : List Nat)
  | stream (chunks : List Str)
  | other
deriving DecidableEq

/-- Model of `SiteGenerator.toResponseBody`: a JSX-shaped value is rendered
to a readable stream, everything else is passed through unchanged. -/
def toResponseBody : RenderResult → ResponseBody
  | .jsx r => .stream [r]
  | .text s => .text s
  | .bytes b => .bytes b
  | .stream cs => .stream cs
  | .other => .other

/-- The body of an HTTP response: a rendered body or a file streamed from
disk (`Bun.file`). -/
inductive RespBody where
  | rendered (b : ResponseBody)
  | file (path : Str)
deriving DecidableEq

/-- Model of the `Response` objects `reqHandler` constructs. -/
structure Response where
  status : Nat
  body : RespBody
deriving DecidableEq

/-- The aggregate root `SiteGenerator`: insertion-ordered route and
static-mapping registries plus the two configurable filenames. -/
structure SiteGen where
  routes : List (Str × Renderer)
  staticMappings : List (Str × Str)
  indexFilename : Str
  notFoundFilename : Str

/-- A freshly constructed `SiteGenerator` (default filenames from the
field initializers in the source). -/
def emptyGen : SiteGen :=
  ⟨[], [], ("index.html").toList, ("404.html").toList⟩

/-- The candidate list `reqHandler` builds for a requested path: the exact
path, the path with a trailing slash appended, and, when the path ends
with a slash followed by the index filename, the path with the index
filename (its characters only, keeping the slash) stripped from the end. -/
def candidates (idx path : Str) : List Str :=
  [path, path ++ ['/']] ++
    (if ('/' :: idx) <:+ path then [path.take (path.length - idx.length)] else [])

/-- The page-route resolution loop of `reqHandler`: try each candidate in
order against the route registry, first hit wins. -/
def resolvePage (g : SiteGen) (path : Str) : Option Renderer :=
  (candidates g.indexFilename path).findSome? (fun c => mapGet g.routes c)

/-- Model of `SiteGenerator.setRoute` with a direct renderer. -/
def setRoute (g : SiteGen) (route : Str) (r : Renderer) : SiteGen :=
  { g with routes := mapSet g.routes route r }

/-- Model of `SiteGenerator.setNotFound`: registers under `/` plus the
not-found filename current at the moment of the call. -/
def setNotFound (g : SiteGen) (r : Renderer) : SiteGen :=
  { g with routes := mapSet g.routes ('/' :: g.notFoundFilename) r }

/-- Model of `SiteGenerator.setNotFoundFilename`. -/
def setNotFoundFilename (g : SiteGen) (f : Str) : SiteGen :=
  { g with notFoundFilename := f }

/-- Model of `SiteGenerator.setIndexFilename`. -/
def setIndexFilename (g : SiteGen) (f : Str) : SiteGen :=
  { g with indexFilename := f }

/-- Model of the sanitization `dirPath.replace(/\/\.{2,}/g, '')` in the
static branch of `reqHandler`: scanning left to right, every occurrence of
a slash followed by a maximal run of two-or-more dots is deleted, and the
scan resumes after the deleted run (JavaScript global replace does not
rescan the junction). -/
def stripDots (s : List Char) : List Char :=
  match s with
  | [] => []
  | c :: rest =>
    if c = '/' ∧ 2 ≤ (rest.takeWhile (fun d => d == '.')).length then
      stripDots (rest.drop (rest.takeWhile (fun d => d == '.')).length)
    else
      c :: stripDots rest
termination_by s.length
decreasing_by
  all_goals simp [List.length_drop]
  omega

/-- Model of the full sanitization step for a static mapping: strip the
matched prefix, prepend a leading slash when absent, then delete the
slash-dots runs. -/
def staticDirPath (route path : Str) : Str :=
  stripDots
    (if (path.drop route.length).head? = some '/' then path.drop route.length
     else '/' :: path.drop route.length)

/-- Whether the text starts with a slash directly followed by two dots. -/
def startsSDD (s : List Char) : Bool :=
  match s with
  | a :: b :: c :: _ => a == '/' && b == '.' && c == '.'
  | _ => false

/-- Whether the text contains a slash directly followed by two dots
anywhere (the shape of a traversal segment after sanitization). -/
def hasSlashDotDot : List Char → Bool
  | [] => false
  | a :: rest => startsSDD (a :: rest) || hasSlashDotDot rest

/-- Lexical resolution of a slash-separated relative path against a base
directory sitting `d` levels deep: empty and `.` segments are skipped, a
`..` segment pops one level, and popping at depth zero means the path
denotes a file lexically outside the base directory (the formal reading
of "lexically outside the mapped directory" for the path the code joins
under the mapped directory). -/
def escapesFrom (d : Nat) (s : List Char) : Bool :=
  match s with
  | [] => false
  | c :: cs =>
    if ((c :: cs).takeWhile (fun x => x != '/')) = ['.', '.'] then
      match d with
      | 0 => true
      | d' + 1 =>
        escapesFrom d'
          (((c :: cs).drop ((c :: cs).takeWhile (fun x => x != '/')).length).drop 1)
    else if ((c :: cs).takeWhile (fun x => x != '/')) = []
        ∨ ((c :: cs).takeWhile (fun x => x != '/')) = ['.'] then
      escapesFrom d
        (((c :: cs).drop ((c :: cs).takeWhile (fun x => x != '/')).length).drop 1)
    else
      escapesFrom (d + 1)
        (((c :: cs).drop ((c :: cs).takeWhile (fun x => x != '/')).length).drop 1)
termination_by s.length
decreasing_by
  all_goals simp [List.length_drop]
  all_goals omega

/-- Model of `joinPaths` from node, restricted to the slash handling at
the joint (dot segments inside the joined parts are out of scope here;
empty parts are ignored exactly as node does). -/
def joinP (a b : Str) : Str :=
  if a = [] then b
  else if b = [] then a
  else (if a.getLast? = some '/' then a.dropLast else a) ++
    '/' :: (if b.head? = some '/' then b.drop 1 else b)

/-- The diagnostic body served when neither a route nor a static file nor
a not-found renderer matches. -/
def noRouteMsg : Str :=
  ("No route was found, and no 404 page was found either").toList

/-- The static-file scan of `reqHandler`: the first mapping, in
registration order, whose prefix literally starts the requested path and
whose sanitized path is an existing regular file under the mapped
directory, produces that file path. -/
def findStatic (g : SiteGen) (isFile : Str → Bool) (path : Str) : Option Str :=
  g.staticMappings.findSome? (fun m =>
    if m.1.isPrefixOf path then
      if isFile (joinP m.2 (staticDirPath m.1 path)) then
        some (joinP m.2 (staticDirPath m.1 path))
      else none
    else none)

/-- Model of `SiteGenerator.reqHandler` for a requested path: page routes
first (status 200 with the normalized render result), then static files
(status 200 streaming the file), then the not-found route under `/` plus
the current not-found filename (status 404 with its normalized result),
else status 404 with the fixed diagnostic text. -/
def reqHandler (g : SiteGen) (isFile : Str → Bool) (path : Str) : Response :=
  match resolvePage g path with
  | some r => ⟨200, .rendered (toResponseBody r)⟩
  | none =>
    match findStatic g isFile path with
    | some fp => ⟨200, .file fp⟩
    | none =>
      match mapGet g.routes ('/' :: g.notFoundFilename) with
      | some r => ⟨404, .rendered (toResponseBody r)⟩
      | none => ⟨404, .rendered (.text noRouteMsg)⟩

/-- Error message for a static route missing the leading slash. -/
def errNoLeadingSlash : Str :=
  ("Static routes must begin with an initial slash (using \"/ is valid for root)").toList

/-- Error message for a static route missing the trailing slash. -/
def errNoTrailingSlash : Str :=
  ("Static routes must end with a trailing slash (using \"/\" is valid for root)").toList

/-- Model of `SiteGenerator.mapStatic`: validate the prefix shape, then
register the mapping; a validation failure throws before the registry is
touched. -/
def mapStatic (g : SiteGen) (route directory : Str) : Except Str SiteGen :=
  if route.head? = some '/' then
    if route.getLast? = some '/' then
      .ok { g with staticMappings := mapSet g.staticMappings route directory }
    else .error errNoTrailingSlash
  else .error errNoLeadingSlash

/-- The content a build writes into one output file: the UTF-8 text or
the raw bytes handed to `Bun.write`. -/
inductive FileData where
  | str (s : Str)
  | raw (b : List Nat)
deriving DecidableEq

/-- The error message thrown by `build` for an unrecognized render
result. -/
def invalidRenderMsg : Str :=
  ("Invalid render result. Must be one of the following types: string, Uint8Array, ReadableStream, or JSX.Element.").toList

/-- Build-mode normalization of one render result (the if-chain in the
route loop of `build`): text kept, JSX rendered to a string, a stream
fully drained and its chunks concatenated, raw bytes kept, anything else
is the fatal invalid-render-result error. -/
def buildRender : RenderResult → Except Str FileData
  | .text s => .ok (.str s)
  | .jsx r => .ok (.str r)
  | .stream cs => .ok (.str cs.flatten)
  | .bytes b => .ok (.raw b)
  | .other => .error invalidRenderMsg

/-- The output file path `build` computes for a route key: join the
output directory with the key and append the index filename when the
joined path ends with a slash. -/
def routeOutFile (g : SiteGen) (outDir route : Str) : Str :=
  if (joinP outDir route).getLast? = some '/' then
    joinP outDir route ++ g.indexFilename
  else joinP outDir route

/-- Sequential effectful map over `Except`, aborting at the first error
(the shape of the route loop in `build`). -/
def mapME {α β : Type} (f : α → Except Str β) : List α → Except Str (List β)
  | [] => .ok []
  | a :: l =>
    match f a with
    | .error e => .error e
    | .ok b =>
      match mapME f l with
      | .error e => .error e
      | .ok bs => .ok (b :: bs)

/-- The file writes the static-copy phase of `build` performs, in
registration order: each mapped source directory (modelled as its finite
list of relative file paths and contents) is copied under
`joinPaths(outDir, prefix)` by `copyRecursive`. -/
def staticWrites (g : SiteGen) (fsDirs : Str → List (Str × FileData))
    (outDir : Str) : List (Str × FileData) :=
  g.staticMappings.flatMap (fun m =>
    (fsDirs m.2).map (fun f => (joinP (joinP outDir m.1) f.1, f.2)))

/-- The file writes the route-rendering phase of `build` performs, in
registration order, or the error aborting the run. -/
def pageWritesE (g : SiteGen) (outDir : Str) :
    Except Str (List (Str × FileData)) :=
  mapME (fun e =>
    match buildRender e.2 with
    | .error msg => .error msg
    | .ok d => .ok (routeOutFile g outDir e.1, d)) g.routes

/-- All file writes of one `build` run in execution order: the static
copies first, then the rendered routes; a render failure aborts the whole
run. -/
def buildWrites (g : SiteGen) (fsDirs : Str → List (Str × FileData))
    (outDir : Str) : Except Str (List (Str × FileData)) :=
  match pageWritesE g outDir with
  | .error e => .error e
  | .ok pws => .ok (staticWrites g fsDirs outDir ++ pws)

/-- The content a path holds after a list of writes is applied in order:
the last write to that path wins (each write overwrites any existing
file). -/
def lastWrite (ws : List (Str × FileData)) (p : Str) : Option FileData :=
  (ws.reverse.find? (fun w => w.1 == p)).map (fun w => w.2)

/-- The parsed command line: positional arguments plus the option map
(`null` values are options given without `=`). -/
structure ParsedArgs where
  args : List Str
  options : List (Str × Option Str)

/-- Split an option token body at the first `=`: everything before it is
the key, everything after it the value; no `=` means a null value. -/
def splitEq : List Char → List Char × Option (List Char)
  | [] => ([], none)
  | c :: t =>
    if c = '=' then ([], some t)
    else
      ((splitEq t).1.cons c, (splitEq t).2)

/-- Whether a token is an option token (starts with two hyphens). -/
def isOptTok (t : Str) : Bool :=
  (['-', '-']).isPrefixOf t

/-- One iteration of the parsing loop of `ParsedArgs.parse`. -/
def parseStep (acc : ParsedArgs) (arg : Str) : ParsedArgs :=
  if isOptTok arg then
    { acc with options := mapSet acc.options (splitEq (arg.drop 2)).1 (splitEq (arg.drop 2)).2 }
  else
    { acc with args := acc.args ++ [arg] }

/-- The parsing loop of `ParsedArgs.parse`. -/
def parseLoop (acc : ParsedArgs) : List Str → ParsedArgs
  | [] => acc
  | a :: l => parseLoop (parseStep acc a) l

/-- Model of `ParsedArgs.parse`. -/
def parseArgsL (rawArgs : List Str) (sliceFirstTwo : Bool) : ParsedArgs :=
  parseLoop ⟨[], []⟩ (if sliceFirstTwo then rawArgs.drop 2 else rawArgs)

/-- Model of `ParsedArgs.getOption`: `none` when the option is absent,
`some none` when present without a value. -/
def getOption (pa : ParsedArgs) (arg : Str) : Option (Option Str) :=
  mapGet pa.options arg

/-- The default list of strings an option value is tested against by
`isOptionTrue`. -/
def defaultTrueValues : List Str :=
  [("true").toList, ("yes").toList, ("y").toList, ("1").toList]

/-- Model of `ParsedArgs.isOptionTrue`: absent means false, present with
no value yields the no-value flag, otherwise the value is compared
against the true-values list, case-insensitively unless requested
otherwise. -/
def isOptionTrue (pa : ParsedArgs) (arg : Str) (useNoValueAsTrue : Bool)
    (trueValues : List Str) (trueValuesCaseSensitive : Bool) : Bool :=
  match mapGet pa.options arg with
  | none => false
  | some none => useNoValueAsTrue
  | some (some v) =>
    if trueValuesCaseSensitive then trueValues.contains v
    else trueValues.any (fun tv => v.map Char.toLower == tv.map Char.toLower)

-- Basic sanity checks of the resolver model on the example site of the
-- repository (routes `/` and `/hi/`).
example :
    resolvePage (setRoute emptyGen ("/hi/").toList (.text ("h").toList)) ("/hi").toList
      = some (.text ("h").toList) := by decide

example :
    resolvePage (setRoute emptyGen ("/hi/").toList (.text ("h").toList)) ("/hi/index.html").toList
      = some (.text ("h").toList) := by decide

theorem mapGet_set_self {α : Type} (m : List (Str × α)) (k : Str) (v : α) :
    mapGet (mapSet m k v) k = some v := by
  induction m with
  | nil => simp [mapSet, mapGet]
  | cons e rest ih =>
    by_cases h : e.1 = k
    · simp [mapSet, mapGet, h]
    · simp [mapSet, mapGet, h, ih]

theorem mapGet_set_other {α : Type} (m : List (Str × α)) (k k' : Str) (v : α)
    (h : k' ≠ k) : mapGet (mapSet m k v) k' = mapGet m k' := by
  have hkk : ¬(k = k') := fun hh => h hh.symm
  induction m with
  | nil => simp [mapSet, mapGet, hkk]
  | cons e rest ih =>
    by_cases he : e.1 = k
    · subst he
      simp [mapSet, mapGet, hkk]
    · simp [mapSet, mapGet, he, ih]

theorem drop_takeWhile_length (p : Char → Bool) (l : List Char) :
    l.drop (l.takeWhile p).length = l.dropWhile p := by
  induction l with
  | nil => simp
  | cons a l ih =>
    by_cases h : p a
    · simp [List.takeWhile_cons, List.dropWhile_cons, h, ih]
    · simp [List.takeWhile_cons, List.dropWhile_cons, h]

theorem head_after_dots (rest : List Char) :
    (rest.drop ((rest.takeWhile (fun d => d == '.')).length)).head? ≠ some '.' := by
  rw [drop_takeWhile_length]
  have h := List.head?_dropWhile_not (fun d => d == '.') rest
  intro hEq
  rw [hEq] at h
  simp at h

theorem stripDots_head :
    ∀ n s, s.length ≤ n → s.head? ≠ some '.' → (stripDots s).head? ≠ some '.' := by
  intro n
  induction n with
  | zero =>
    intro s hs _
    have : s = [] := List.length_eq_zero.mp (Nat.le_zero.mp hs)
    subst this
    simp [stripDots]
  | succ n ih =>
    intro s hs h
    match s with
    | [] => simp [stripDots]
    | c :: rest =>
      by_cases hc : c = '/' ∧ 2 ≤ (rest.takeWhile (fun d => d == '.')).length
      · rw [stripDots, if_pos hc]
        apply ih
        · simp only [List.length_cons] at hs
          have := List.length_drop ((rest.takeWhile (fun d => d == '.')).length) rest
          omega
        · exact head_after_dots rest
      · rw [stripDots, if_neg hc]
        simp only [List.head?_cons] at h ⊢
        exact h

theorem startsSDD_cons_ne (a : Char) (X : List Char) (ha : (a == '/') = false) :
    startsSDD (a :: X) = false := by
  match X with
  | [] => simp [startsSDD]
  | [b] => simp [startsSDD]
  | b :: c :: r => simp [startsSDD, ha]

theorem startsSDD_slash_head (X : List Char) (hX : X.head? ≠ some '.') :
    startsSDD ('/' :: X) = false := by
  match X with
  | [] => simp [startsSDD]
  | [b] => simp [startsSDD]
  | b :: c :: r =>
    have hb : b ≠ '.' := by
      intro hh
      exact hX (by simp [hh])
    simp [startsSDD, hb]

theorem hasSlashDotDot_tail (a : Char) (s : List Char)
    (h : hasSlashDotDot (a :: s) = false) : hasSlashDotDot s = false := by
  simp only [hasSlashDotDot, Bool.or_eq_false_iff] at h
  exact h.2

theorem hasSlashDotDot_drop (s : List Char) (n : Nat)
    (h : hasSlashDotDot s = false) : hasSlashDotDot (s.drop n) = false := by
  induction n generalizing s with
  | zero => simpa using h
  | succ n ih =>
    match s with
    | [] => simpa using h
    | a :: rest =>
      simp only [List.drop_succ_cons]
      exact ih rest (hasSlashDotDot_tail a rest h)

theorem hasSlashDotDot_cons_of_ne (a : Char) (X : List Char)
    (ha : (a == '/') = false) :
    hasSlashDotDot (a :: X) = hasSlashDotDot X := by
  simp only [hasSlashDotDot, startsSDD_cons_ne a X ha, Bool.false_or]

theorem hasSlashDotDot_cons_slash (X : List Char) (hX : X.head? ≠ some '.') :
    hasSlashDotDot ('/' :: X) = hasSlashDotDot X := by
  simp only [hasSlashDotDot, startsSDD_slash_head X hX, Bool.false_or]

theorem stripDots_no_sdd :
    ∀ n s, s.length ≤ n → hasSlashDotDot (stripDots s) = false := by
  intro n
  induction n with
  | zero =>
    intro s hs
    have : s = [] := List.length_eq_zero.mp (Nat.le_zero.mp hs)
    subst this
    simp [stripDots, hasSlashDotDot]
  | succ n ih =>
    intro s hs
    match s with
    | [] => simp [stripDots, hasSlashDotDot]
    | c :: rest =>
      simp only [List.length_cons] at hs
      by_cases hc : c = '/' ∧ 2 ≤ (rest.takeWhile (fun d => d == '.')).length
      · rw [stripDots, if_pos hc]
        apply ih
        have := List.length_drop ((rest.takeWhile (fun d => d == '.')).length) rest
        omega
      · rw [stripDots, if_neg hc]
        by_cases hslash : c = '/'
        · subst hslash
          match rest with
          | [] => simp [stripDots, hasSlashDotDot, startsSDD]
          | d :: rest' =>
            simp only [List.length_cons] at hs
            by_cases hd : d = '.'
            · subst hd
              have hdots :
                  (('.' :: rest').takeWhile (fun d => d == '.')).length ≤ 1 := by
                by_contra hgt
                exact hc ⟨rfl, by omega⟩
              have hr' : rest'.head? ≠ some '.' := by
                intro hh
                match rest' with
                | [] => simp at hh
                | e :: r =>
                  simp only [List.head?_cons, Option.some.injEq] at hh
                  subst hh
                  simp [List.takeWhile_cons] at hdots
              have hrec : stripDots ('.' :: rest') = '.' :: stripDots rest' := by
                rw [stripDots, if_neg]
                intro hcc
                exact (by decide : ('.' : Char) ≠ '/') hcc.1
              rw [hrec]
              have hX := ih rest' (by omega)
              have hsh : (stripDots rest').head? ≠ some '.' :=
                stripDots_head n rest' (by omega) hr'
              have h1 : startsSDD ('/' :: '.' :: stripDots rest') = false := by
                cases hXe : stripDots rest' with
                | nil => simp [startsSDD]
                | cons x xs =>
                  have hx : x ≠ '.' := by
                    intro hh
                    rw [hXe] at hsh
                    exact hsh (by simp [hh])
                  simp [startsSDD, hx]
              have h2 : startsSDD ('.' :: stripDots rest') = false :=
                startsSDD_cons_ne '.' _ (by decide)
              simp only [hasSlashDotDot, h1, h2, Bool.false_or]
              exact hX
            · have hsh : (stripDots (d :: rest')).head? ≠ some '.' := by
                apply stripDots_head n (d :: rest')
                  (by simp only [List.length_cons]; omega)
                intro hh
                simp only [List.head?_cons, Option.some.injEq] at hh
                exact hd hh
              rw [hasSlashDotDot_cons_slash _ hsh]
              exact ih (d :: rest') (by simp only [List.length_cons]; omega)
        · have hcb : (c == '/') = false := beq_eq_false_iff_ne.mpr hslash
          rw [hasSlashDotDot_cons_of_ne c _ hcb]
          exact ih rest (by omega)

theorem take_two_shape (l : List Char) (h : l.take 2 = ['.', '.']) :
    ∃ t, l = '.' :: '.' :: t := by
  match l with
  | [] => simp at h
  | [a] => simp at h
  | a :: b :: t =>
    simp only [List.take_succ_cons, List.take_zero, List.cons.injEq, and_true] at h
    exact ⟨t, by rw [h.1, h.2]⟩

theorem escapesFrom_cons (d : Nat) (c : Char) (cs : List Char) :
    escapesFrom d (c :: cs) =
      if ((c :: cs).takeWhile (fun x => x != '/')) = ['.', '.'] then
        match d with
        | 0 => true
        | d' + 1 =>
          escapesFrom d'
            (((c :: cs).drop ((c :: cs).takeWhile (fun x => x != '/')).length).drop 1)
      else if ((c :: cs).takeWhile (fun x => x != '/')) = []
          ∨ ((c :: cs).takeWhile (fun x => x != '/')) = ['.'] then
        escapesFrom d
          (((c :: cs).drop ((c :: cs).takeWhile (fun x => x != '/')).length).drop 1)
      else
        escapesFrom (d + 1)
          (((c :: cs).drop ((c :: cs).takeWhile (fun x => x != '/')).length).drop 1) := by
  rw [escapesFrom.eq_def]

theorem escapes_ok :
    ∀ n s, s.length ≤ n → hasSlashDotDot s = false → s.take 2 ≠ ['.', '.'] →
      ∀ d, escapesFrom d s = false := by
  intro n
  induction n with
  | zero =>
    intro s hs _ _ d
    have : s = [] := List.length_eq_zero.mp (Nat.le_zero.mp hs)
    subst this
    simp [escapesFrom]
  | succ n ih =>
    intro s hs hsdd htake d
    match s with
    | [] => simp [escapesFrom]
    | c :: cs =>
      simp only [List.length_cons] at hs
      have hrw :
          (((c :: cs).drop ((c :: cs).takeWhile (fun x => x != '/')).length).drop 1)
            = ((c :: cs).dropWhile (fun x => x != '/')).drop 1 := by
        rw [drop_takeWhile_length]
      have hdw : hasSlashDotDot ((c :: cs).dropWhile (fun x => x != '/')) = false := by
        rw [← drop_takeWhile_length]
        exact hasSlashDotDot_drop _ _ hsdd
      have hrsdd :
          hasSlashDotDot (((c :: cs).dropWhile (fun x => x != '/')).drop 1) = false :=
        hasSlashDotDot_drop _ 1 hdw
      have hrlen : (((c :: cs).dropWhile (fun x => x != '/')).drop 1).length ≤ n := by
        have h1 : ((c :: cs).dropWhile (fun x => x != '/')).length ≤ cs.length + 1 := by
          rw [← drop_takeWhile_length]
          have := List.length_drop ((c :: cs).takeWhile (fun x => x != '/')).length (c :: cs)
          simp only [List.length_cons] at this
          omega
        have := List.length_drop 1 ((c :: cs).dropWhile (fun x => x != '/'))
        omega
      have hrtake :
          (((c :: cs).dropWhile (fun x => x != '/')).drop 1).take 2 ≠ ['.', '.'] := by
        cases hdwe : (c :: cs).dropWhile (fun x => x != '/') with
        | nil => simp
        | cons a t =>
          have ha : a = '/' := by
            have hh := List.head?_dropWhile_not (fun x => x != '/') (c :: cs)
            rw [hdwe] at hh
            simp only [List.head?_cons] at hh
            exact bne_eq_false_iff_eq.mp hh
          intro hcon
          simp only [List.drop_succ_cons, List.drop_zero] at hcon
          obtain ⟨t', ht'⟩ := take_two_shape t hcon
          rw [hdwe, ha, ht'] at hdw
          simp [hasSlashDotDot, startsSDD] at hdw
      rw [escapesFrom_cons]
      by_cases h1 : ((c :: cs).takeWhile (fun x => x != '/')) = ['.', '.']
      · exfalso
        apply htake
        obtain ⟨t, ht⟩ := (List.takeWhile_prefix (l := c :: cs) (fun x => x != '/'))
        rw [h1] at ht
        rw [← ht]
        exact List.take_left' rfl
      · rw [if_neg h1]
        by_cases h2 : ((c :: cs).takeWhile (fun x => x != '/')) = []
            ∨ ((c :: cs).takeWhile (fun x => x != '/')) = ['.']
        · rw [if_pos h2, hrw]
          exact ih _ hrlen hrsdd hrtake d
        · rw [if_neg h2, hrw]
          exact ih _ hrlen hrsdd hrtake (d + 1)

theorem take_two_head (s : List Char) (h : s.head? ≠ some '.') :
    s.take 2 ≠ ['.', '.'] := by
  intro hcon
  obtain ⟨t, ht⟩ := take_two_shape s hcon
  rw [ht] at h
  simp at h

/-- Claim C3: for every static mapping prefix and every requested path
that starts with that prefix and contains a slash followed by two-or-more
dots, the sanitized relative path produced by the guard (strip the
prefix, prepend a leading slash when absent, delete every slash-dots run)
never resolves lexically outside the mapped directory: resolving its
slash-separated segments from the mapped directory as root never pops
above the root. -/
theorem claim3_traversal_guard (route path : Str)
    (_hpre : route <+: path)
    (_hdots : hasSlashDotDot path = true) :
    escapesFrom 0 (staticDirPath route path) = false := by
  have hslash :
      (if (path.drop route.length).head? = some '/' then path.drop route.length
       else '/' :: path.drop route.length).head? ≠ some '.' := by
    by_cases h : (path.drop route.length).head? = some '/'
    · rw [if_pos h, h]
      simp
    · rw [if_neg h]
      simp
  have hhead := stripDots_head
    ((if (path.drop route.length).head? = some '/' then path.drop route.length
      else '/' :: path.drop route.length).length) _ le_rfl hslash
  have hsdd := stripDots_no_sdd
    ((if (path.drop route.length).head? = some '/' then path.drop route.length
      else '/' :: path.drop route.length).length) _ le_rfl
  exact escapes_ok (staticDirPath route path).length _ le_rfl hsdd
    (take_two_head _ hhead) 0

/-- Claim C3 (witness): the mapping prefix `/static/` and the traversal
request `/static/../secret`; the sanitized path cannot escape the mapped
directory. -/
theorem claim3_traversal_guard_inst :
    escapesFrom 0 (staticDirPath ("/static/").toList ("/static/../secret").toList)
      = false :=
  claim3_traversal_guard (("/static/").toList) (("/static/../secret").toList)
    (by decide) (by decide)

/-- Claim C1 (counterexample): with the sole route `/todo`, a request for
`/todo` resolves to its renderer but a request for `/todo/` resolves to no
page route at all — the resolver candidates for `/todo/` are `/todo/` and
`/todo//`, never `/todo`, so the trailing-slash equivalence claimed for
keys without a trailing slash fails. -/
theorem claim1_trailing_slash_cex :
    resolvePage (setRoute emptyGen ("/todo").toList (.text ("T").toList)) ("/todo").toList
        = some (.text ("T").toList)
    ∧ resolvePage (setRoute emptyGen ("/todo").toList (.text ("T").toList)) ("/todo/").toList
        = none := by
  constructor
  · decide
  · decide

/-- Claim C1 (amended): requesting the exact key `K` of a registered route
resolves to that route by exact-match priority, and requesting `K + "/"`
resolves to a route only when one is registered at exactly `K + "/"`; the
trailing-slash equivalence instead runs in the opposite direction — a
request for `K` resolves to a route registered at `K + "/"` whenever no
route is registered at `K` itself. -/
theorem claim1_trailing_slash_amended (g : SiteGen) (K : Str) (r r' : Renderer) :
    (mapGet g.routes K = some r → resolvePage g K = some r)
    ∧ (mapGet g.routes (K ++ ['/']) = some r' →
        resolvePage g (K ++ ['/']) = some r')
    ∧ (mapGet g.routes K = none → mapGet g.routes (K ++ ['/']) = some r' →
        resolvePage g K = some r') := by
  refine ⟨fun h => ?_, fun h => ?_, fun h0 h => ?_⟩
  · simp [resolvePage, candidates, List.findSome?_cons, h]
  · simp [resolvePage, candidates, List.findSome?_cons, h]
  · simp [resolvePage, candidates, List.findSome?_cons, h0, h]

/-- Claim C1 (amended, witness): instantiates the amended claim at the
routes `/todo` (for the exact-match part) and `/hi/` (for the reverse
trailing-slash equivalence part). -/
theorem claim1_trailing_slash_amended_inst :
    resolvePage (setRoute emptyGen ("/todo").toList (.text ("T").toList)) ("/todo").toList
        = some (.text ("T").toList)
    ∧ resolvePage (setRoute emptyGen ("/hi/").toList (.text ("h").toList)) ("/hi").toList
        = some (.text ("h").toList) := by
  constructor
  · exact (claim1_trailing_slash_amended
      (setRoute emptyGen (("/todo").toList) (.text (("T").toList)))
      (("/todo").toList) (.text (("T").toList)) (.text (("T").toList))).1 (by decide)
  · exact (claim1_trailing_slash_amended
      (setRoute emptyGen (("/hi/").toList) (.text (("h").toList)))
      (("/hi").toList) (.text (("h").toList)) (.text (("h").toList))).2.2
      (by decide) (by decide)

/-- Claim C2: for a route registered under a key `K` ending in `/`, a
request for `K` with the index filename appended resolves to the same
renderer as a request for `K` itself, provided no distinct route shadows
the earlier candidates `K ++ indexFilename` and `K ++ indexFilename ++ "/"`
(the resolver takes the first registered hit in the order: exact path,
path plus trailing slash, path with the index-filename suffix stripped). -/
theorem claim2_index_suffix (g : SiteGen) (K : Str) (r : Renderer)
    (hK : K.getLast? = some '/')
    (hreg : mapGet g.routes K = some r)
    (h1 : mapGet g.routes (K ++ g.indexFilename) = none)
    (h2 : mapGet g.routes (K ++ g.indexFilename ++ ['/']) = none) :
    resolvePage g (K ++ g.indexFilename) = some r
    ∧ resolvePage g K = some r := by
  obtain ⟨K', hK'⟩ := List.getLast?_eq_some_iff.mp hK
  constructor
  · have hsuf : ('/' :: g.indexFilename) <:+ (K ++ g.indexFilename) := by
      refine ⟨K', ?_⟩
      rw [hK']
      simp
    have htake :
        (K ++ g.indexFilename).take ((K ++ g.indexFilename).length - g.indexFilename.length)
          = K := by
      have hlen : (K ++ g.indexFilename).length - g.indexFilename.length = K.length := by
        simp
      rw [hlen, List.take_left]
    have h2' : mapGet g.routes (K ++ (g.indexFilename ++ ['/'])) = none := by
      rw [← List.append_assoc]
      exact h2
    simp only [resolvePage, candidates, if_pos hsuf, List.cons_append, List.nil_append]
    simp [List.findSome?_cons, h1, h2', htake, hreg]
  · simp [resolvePage, candidates, List.findSome?_cons, hreg]

/-- Claim C2 (witness): the route `/foo/` with the default index filename;
both `/foo/index.html` and `/foo/` resolve to its renderer. -/
theorem claim2_index_suffix_inst :
    resolvePage (setRoute emptyGen ("/foo/").toList (.text ("F").toList))
        ("/foo/index.html").toList
      = some (.text ("F").toList)
    ∧ resolvePage (setRoute emptyGen ("/foo/").toList (.text ("F").toList))
        ("/foo/").toList
      = some (.text ("F").toList) := by
  have h := claim2_index_suffix
    (setRoute emptyGen (("/foo/").toList) (.text (("F").toList)))
    (("/foo/").toList) (.text (("F").toList))
    (by decide) (by decide) (by decide) (by decide)
  exact h

theorem lastWrite_append (a b : List (Str × FileData)) (p : Str) (d : FileData)
    (h : lastWrite b p = some d) : lastWrite (a ++ b) p = some d := by
  unfold lastWrite at h ⊢
  rw [List.reverse_append, List.find?_append]
  cases hf : b.reverse.find? (fun w => w.1 == p) with
  | none =>
    rw [hf] at h
    simp at h
  | some w =>
    rw [hf] at h
    simp only [Option.map_some'] at h
    simp [hf, h]

/-- Claim C4: every static-mapping copy happens strictly before any route
is rendered and written, so whatever content the route-rendering phase
last writes to a path is the final content of that path after the whole
build — a page route overwrites a same-path static file, never the other
way round. -/
theorem claim4_static_before_pages (g : SiteGen)
    (fsDirs : Str → List (Str × FileData)) (outDir p : Str)
    (ws pws : List (Str × FileData)) (d : FileData)
    (hbw : buildWrites g fsDirs outDir = .ok ws)
    (hpw : pageWritesE g outDir = .ok pws)
    (hlast : lastWrite pws p = some d) :
    lastWrite ws p = some d := by
  unfold buildWrites at hbw
  rw [hpw] at hbw
  simp only [Except.ok.injEq] at hbw
  rw [← hbw]
  exact lastWrite_append _ _ _ _ hlast

/-- Claim C4 (witness): a static mapping of `/` to a directory holding
`index.html` with content STATIC, and a page route `/` rendering PAGE;
after the build the output `out/index.html` holds PAGE. -/
theorem claim4_static_before_pages_inst :
    buildWrites
        ⟨[(("/").toList, .text ("PAGE").toList)],
         [(("/").toList, ("st").toList)],
         ("index.html").toList, ("404.html").toList⟩
        (fun dir => if dir = ("st").toList
          then [(("index.html").toList, .str ("STATIC").toList)] else [])
        ("out").toList
      = .ok [((("out/index.html").toList), .str ("STATIC").toList),
             ((("out/index.html").toList), .str ("PAGE").toList)]
    ∧ lastWrite
        [((("out/index.html").toList), .str ("STATIC").toList),
         ((("out/index.html").toList), .str ("PAGE").toList)]
        (("out/index.html").toList)
      = some (.str ("PAGE").toList) := by
  constructor
  · rfl
  · exact claim4_static_before_pages
      ⟨[(("/").toList, .text ("PAGE").toList)],
       [(("/").toList, ("st").toList)],
       ("index.html").toList, ("404.html").toList⟩
      (fun dir => if dir = ("st").toList
        then [(("index.html").toList, .str ("STATIC").toList)] else [])
      (("out").toList) (("out/index.html").toList)
      [((("out/index.html").toList), .str ("STATIC").toList),
       ((("out/index.html").toList), .str ("PAGE").toList)]
      [((("out/index.html").toList), .str ("PAGE").toList)]
      (.str ("PAGE").toList)
      (by rfl) (by rfl) (by rfl)

theorem joinP_getLast (outDir k : Str) (hk : k.head? = some '/') :
    (joinP outDir k).getLast? = k.getLast? := by
  unfold joinP
  by_cases ha : outDir = []
  · rw [if_pos ha]
  · rw [if_neg ha]
    cases k with
    | nil => simp at hk
    | cons c k' =>
      simp only [List.head?_cons, Option.some.injEq] at hk
      subst hk
      rw [if_neg (show ¬('/' :: k' : Str) = [] by simp)]
      rw [if_pos (show ('/' :: k' : Str).head? = some '/' from rfl)]
      simp only [List.drop_one, List.tail_cons]
      rw [List.getLast?_append]
      have hne : ('/' :: k').getLast?.isSome := by
        rw [List.getLast?_isSome]
        simp
      exact Option.or_of_isSome hne

/-- Claim C5: the output file `build` writes for a route key is the
output directory joined with the key, with the configured index filename
appended exactly when the key ends in a slash (stated for keys that begin
with a slash, where the joint adds no trailing slash of its own); and the
two routes `/` rendering A and `/sub/` rendering B with index filename
`index.html` produce exactly the page writes `out/index.html` holding A
and `out/sub/index.html` holding B, in that order and nothing else. -/
theorem claim5_output_paths :
    (∀ (g : SiteGen) (outDir k : Str), k.head? = some '/' →
      routeOutFile g outDir k
        = joinP outDir k
          ++ (if k.getLast? = some '/' then g.indexFilename else []))
    ∧ pageWritesE
        ⟨[(("/").toList, .text ("A").toList), (("/sub/").toList, .text ("B").toList)],
         [], ("index.html").toList, ("404.html").toList⟩
        (("out").toList)
      = .ok [((("out/index.html").toList), .str ("A").toList),
             ((("out/sub/index.html").toList), .str ("B").toList)] := by
  constructor
  · intro g outDir k hk
    unfold routeOutFile
    rw [joinP_getLast outDir k hk]
    by_cases h : k.getLast? = some '/'
    · rw [if_pos h, if_pos h]
    · rw [if_neg h, if_neg h]
      simp
  · rfl

/-- Claim C5 (witness): the route key `/sub/` under output directory
`out` with the default index filename lands at `out/sub/index.html`. -/
theorem claim5_output_paths_inst :
    routeOutFile emptyGen ("out").toList ("/sub/").toList
      = ("out/sub/index.html").toList := by
  rw [claim5_output_paths.1 emptyGen (("out").toList) (("/sub/").toList) (by decide)]
  decide

theorem pageWritesE_error_of_mem (g : SiteGen) (outDir k : Str)
    (hmem : (k, RenderResult.other) ∈ g.routes) :
    pageWritesE g outDir = .error invalidRenderMsg := by
  unfold pageWritesE
  revert hmem
  generalize g.routes = l
  intro hmem
  induction l with
  | nil => simp at hmem
  | cons b t ih =>
    obtain ⟨b1, b2⟩ := b
    rw [mapME]
    have ht : b2 ≠ RenderResult.other → (k, RenderResult.other) ∈ t := by
      intro hb2
      rcases List.mem_cons.mp hmem with h1 | h2
      · exact absurd (congrArg Prod.snd h1).symm hb2
      · exact h2
    cases b2 with
    | other => rfl
    | text s =>
      rw [ih (ht (by simp))]
      rfl
    | bytes bb =>
      rw [ih (ht (by simp))]
      rfl
    | stream cs =>
      rw [ih (ht (by simp))]
      rfl
    | jsx r =>
      rw [ih (ht (by simp))]
      rfl

/-- Claim C6: build-mode normalization drains a byte-stream result and
concatenates its chunks into one buffer whose text is the concatenation
of the chunks, while serve-mode normalization passes the stream through
unchanged; and a route whose renderer returns an unrecognized value makes
the whole build run abort with the invalid-render-result error. -/
theorem claim6_normalization (g : SiteGen)
    (fsDirs : Str → List (Str × FileData)) (outDir k : Str) :
    (∀ cs, buildRender (.stream cs) = .ok (.str cs.flatten))
    ∧ (∀ cs, toResponseBody (.stream cs) = .stream cs)
    ∧ ((k, RenderResult.other) ∈ g.routes →
        buildWrites g fsDirs outDir = .error invalidRenderMsg) := by
  refine ⟨fun cs => rfl, fun cs => rfl, fun hmem => ?_⟩
  unfold buildWrites
  rw [pageWritesE_error_of_mem g outDir k hmem]

/-- Claim C6 (witness): a generator holding a route `/bad` whose renderer
returns an unrecognized value; the whole build errors with the
invalid-render-result message. -/
theorem claim6_normalization_inst :
    buildWrites
        ⟨[(("/bad").toList, RenderResult.other)], [],
         ("index.html").toList, ("404.html").toList⟩
        (fun _ => []) ("out").toList
      = .error invalidRenderMsg :=
  (claim6_normalization
      ⟨[(("/bad").toList, RenderResult.other)], [],
       ("index.html").toList, ("404.html").toList⟩
      (fun _ => []) (("out").toList) (("/bad").toList)).2.2 (by decide)

/-- Claim C7: when a request matches no page route and no static file,
the response is status 404, with the normalized output of the renderer
registered under `/` plus the not-found filename when one is registered,
and with the fixed diagnostic text when none is. -/
theorem claim7_not_found_fallback (g : SiteGen) (isFile : Str → Bool) (path : Str)
    (hpage : resolvePage g path = none)
    (hstatic : findStatic g isFile path = none) :
    (∀ r, mapGet g.routes ('/' :: g.notFoundFilename) = some r →
        reqHandler g isFile path = ⟨404, .rendered (toResponseBody r)⟩)
    ∧ (mapGet g.routes ('/' :: g.notFoundFilename) = none →
        reqHandler g isFile path = ⟨404, .rendered (.text noRouteMsg)⟩) := by
  constructor
  · intro r hr
    unfold reqHandler
    rw [hpage, hstatic, hr]
  · intro hr
    unfold reqHandler
    rw [hpage, hstatic, hr]

/-- Claim C7 (witness): a not-found renderer returning the text
`missing` yields a 404 with body `missing` for the unmatched path
`/nope`; with no routes at all, the same request yields the fixed
diagnostic body. -/
theorem claim7_not_found_fallback_inst :
    reqHandler
        ⟨[(("/404.html").toList, .text ("missing").toList)], [],
         ("index.html").toList, ("404.html").toList⟩
        (fun _ => false) ("/nope").toList
      = ⟨404, .rendered (.text ("missing").toList)⟩
    ∧ reqHandler emptyGen (fun _ => false) ("/nope").toList
      = ⟨404, .rendered (.text noRouteMsg)⟩ := by
  constructor
  · exact (claim7_not_found_fallback
      ⟨[(("/404.html").toList, .text ("missing").toList)], [],
       ("index.html").toList, ("404.html").toList⟩
      (fun _ => false) (("/nope").toList) (by decide) (by decide)).1
      (.text (("missing").toList)) (by decide)
  · exact (claim7_not_found_fallback emptyGen (fun _ => false) (("/nope").toList)
      (by decide) (by decide)).2 (by decide)

/-- Claim C8: `mapStatic` raises a configuration error when the route
does not start or does not end with a slash (synchronously, before the
registry is touched, which the `Except` model renders as an error result
carrying no updated generator), and otherwise succeeds, adding or
overwriting exactly the entry for that route and leaving every other key
unchanged. -/
theorem claim8_mapStatic_validation (g : SiteGen) (route dir : Str) :
    (¬(route.head? = some '/' ∧ route.getLast? = some '/') →
      (mapStatic g route dir = .error errNoLeadingSlash
        ∨ mapStatic g route dir = .error errNoTrailingSlash))
    ∧ (route.head? = some '/' → route.getLast? = some '/' →
      mapStatic g route dir
          = .ok { g with staticMappings := mapSet g.staticMappings route dir }
        ∧ mapGet (mapSet g.staticMappings route dir) route = some dir
        ∧ (∀ k, k ≠ route →
            mapGet (mapSet g.staticMappings route dir) k
              = mapGet g.staticMappings k)) := by
  constructor
  · intro h
    unfold mapStatic
    by_cases h1 : route.head? = some '/'
    · rw [if_pos h1]
      by_cases h2 : route.getLast? = some '/'
      · exact absurd ⟨h1, h2⟩ h
      · rw [if_neg h2]
        exact Or.inr rfl
    · rw [if_neg h1]
      exact Or.inl rfl
  · intro h1 h2
    refine ⟨?_, mapGet_set_self _ _ _, fun k hk => mapGet_set_other _ _ _ _ hk⟩
    unfold mapStatic
    rw [if_pos h1, if_pos h2]

/-- Claim C8 (witness): registering `/assets` (no trailing slash) errors;
registering `/assets/` adds exactly that entry. -/
theorem claim8_mapStatic_validation_inst :
    (mapStatic emptyGen ("/assets").toList ("st").toList = .error errNoLeadingSlash
      ∨ mapStatic emptyGen ("/assets").toList ("st").toList = .error errNoTrailingSlash)
    ∧ mapGet (mapSet emptyGen.staticMappings ("/assets/").toList ("st").toList)
        ("/assets/").toList = some (("st").toList) := by
  constructor
  · exact (claim8_mapStatic_validation emptyGen (("/assets").toList)
      (("st").toList)).1 (by decide)
  · exact ((claim8_mapStatic_validation emptyGen (("/assets/").toList)
      (("st").toList)).2 (by decide) (by decide)).2.1

/-- Claim C10: `setNotFound` registers under `/` plus the not-found
filename current at call time, while the serve-time fallback looks up `/`
plus the filename current at request time; after renaming the not-found
filename, an unmatched request no longer reaches the registered renderer
and yields the generic diagnostic body instead (provided no route happens
to sit at the new name). -/
theorem claim10_stale_not_found (g : SiteGen) (r : Renderer) (f : Str)
    (isFile : Str → Bool) (path : Str)
    (_hne : f ≠ g.notFoundFilename)
    (hnew : mapGet (mapSet g.routes ('/' :: g.notFoundFilename) r) ('/' :: f) = none)
    (hpage : resolvePage (setNotFoundFilename (setNotFound g r) f) path = none)
    (hstatic : findStatic (setNotFoundFilename (setNotFound g r) f) isFile path
      = none) :
    mapGet (setNotFoundFilename (setNotFound g r) f).routes
        ('/' :: g.notFoundFilename) = some r
    ∧ reqHandler (setNotFoundFilename (setNotFound g r) f) isFile path
        = ⟨404, .rendered (.text noRouteMsg)⟩ := by
  constructor
  · exact mapGet_set_self _ _ _
  · unfold reqHandler
    rw [hpage, hstatic]
    simp only [setNotFoundFilename, setNotFound] at hnew ⊢
    rw [hnew]

/-- Claim C10 (witness): a not-found renderer registered under the
default `404.html`, then the not-found filename renamed to
`missing.html`; the renderer stays registered under `/404.html` but the
unmatched request `/zzz` now yields the generic diagnostic body. -/
theorem claim10_stale_not_found_inst :
    mapGet (setNotFoundFilename (setNotFound emptyGen (.text ("nf").toList))
        ("missing.html").toList).routes ("/404.html").toList
      = some (.text ("nf").toList)
    ∧ reqHandler (setNotFoundFilename (setNotFound emptyGen (.text ("nf").toList))
        ("missing.html").toList) (fun _ => false) ("/zzz").toList
      = ⟨404, .rendered (.text noRouteMsg)⟩ :=
  claim10_stale_not_found emptyGen (.text (("nf").toList)) (("missing.html").toList)
    (fun _ => false) (("/zzz").toList)
    (by decide) (by decide) (by decide) (by decide)

theorem parseLoop_args (l : List Str) :
    ∀ acc, (parseLoop acc l).args = acc.args ++ l.filter (fun t => !(isOptTok t)) := by
  induction l with
  | nil =>
    intro acc
    simp [parseLoop]
  | cons t ts ih =>
    intro acc
    rw [parseLoop, ih]
    by_cases h : isOptTok t
    · simp [parseStep, h, List.filter_cons]
    · simp [parseStep, h, List.filter_cons]

theorem parseLoop_getOption (l : List Str) :
    ∀ acc k, mapGet (parseLoop acc l).options k
      = (match l.reverse.find?
            (fun t => isOptTok t && ((splitEq (t.drop 2)).1 == k)) with
         | some t => some (splitEq (t.drop 2)).2
         | none => mapGet acc.options k) := by
  induction l with
  | nil =>
    intro acc k
    simp [parseLoop]
  | cons t ts ih =>
    intro acc k
    rw [parseLoop, ih]
    rw [List.reverse_cons, List.find?_append]
    cases hf : ts.reverse.find?
        (fun t => isOptTok t && ((splitEq (t.drop 2)).1 == k)) with
    | some u => simp [Option.or]
    | none =>
      simp only [Option.none_or]
      by_cases h1 : isOptTok t
      · by_cases h2 : (splitEq (t.drop 2)).1 = k
        · rw [List.find?_cons_of_pos _ (by simp [h1, h2])]
          simp only []
          rw [parseStep, if_pos h1]
          simp only []
          rw [h2, mapGet_set_self]
        · rw [List.find?_cons_of_neg _ (by simp [h1, h2]), List.find?_nil]
          rw [parseStep, if_pos h1]
          simp only []
          exact mapGet_set_other _ _ _ _ (fun hk => h2 hk.symm)
      · rw [List.find?_cons_of_neg _ (by simp [h1]), List.find?_nil]
        rw [parseStep, if_neg h1]

/-- Claim C9: parsing classifies every token beginning with two hyphens
as an option — split at the first `=` into key and value, key with null
value when no `=` is present, the last occurrence of a key winning — and
every other token as positional, in order; and parsing
`["--out=dist", "--clear-out", "build"]` yields the positional list
`["build"]`, option `out` with value `dist`, option `clear-out` present
with null value, and `isOptionTrue` on `clear-out` under the default
settings evaluates to true. -/
theorem claim9_arg_parsing :
    (∀ l, (parseArgsL l false).args = l.filter (fun t => !(isOptTok t)))
    ∧ (∀ l k, getOption (parseArgsL l false) k
        = (match l.reverse.find?
              (fun t => isOptTok t && ((splitEq (t.drop 2)).1 == k)) with
           | some t => some (splitEq (t.drop 2)).2
           | none => none))
    ∧ (parseArgsL [("--out=dist").toList, ("--clear-out").toList, ("build").toList]
        false).args = [("build").toList]
    ∧ getOption (parseArgsL [("--out=dist").toList, ("--clear-out").toList,
        ("build").toList] false) ("out").toList = some (some (("dist").toList))
    ∧ getOption (parseArgsL [("--out=dist").toList, ("--clear-out").toList,
        ("build").toList] false) ("clear-out").toList = some none
    ∧ isOptionTrue (parseArgsL [("--out=dist").toList, ("--clear-out").toList,
        ("build").toList] false) ("clear-out").toList true defaultTrueValues false
      = true := by
  refine ⟨fun l => ?_, fun l k => ?_, by decide, by decide, by decide, by decide⟩
  · rw [parseArgsL, if_neg (by simp)]
    rw [parseLoop_args]
    simp
  · rw [getOption, parseArgsL, if_neg (by simp)]
    rw [parseLoop_getOption]
    rfl

end SJS
